import Mathlib

/-
Verification of the microagent framework (agent loop, tool system, memory,
tracing) against its natural-language specification.  The definitions below
are a shallow embedding of `microagent/tools.py`, `microagent/agent.py`,
`microagent/memory.py` and `microagent/tracing.py`; each definition's doc
comment names the Python source it embeds.  Wall-clock timestamps and
`run_id` values (uuid) are omitted from the trace model; no claim concerns
them.
-/

namespace Microagent

/-- Runtime values as they arrive from JSON-decoded tool arguments
(`json.loads` produces str / int / bool / None / list / dict; floats are not
needed by any claim and are omitted). -/
inductive Value where
  | vstr (s : String)
  | vint (n : Int)
  | vbool (b : Bool)
  | vnone
  | vlist (xs : List Value)
  | vdict (ps : List (Value × Value))

/-- True exactly for the Python value `None`. -/
def Value.isNone : Value → Bool
  | .vnone => true
  | _ => false

/-- Python `type(value).__name__` for the modelled values. -/
def Value.pyTypeName : Value → String
  | .vstr _ => "str"
  | .vint _ => "int"
  | .vbool _ => "bool"
  | .vnone => "NoneType"
  | .vlist _ => "list"
  | .vdict _ => "dict"

mutual

/-- Python `repr(value)` for the modelled values (used by `str` on
containers). -/
def Value.pyRepr : Value → String
  | .vstr s => "\x27" ++ s ++ "\x27"
  | .vint n => toString n
  | .vbool b => if b then "True" else "False"
  | .vnone => "None"
  | .vlist xs => "[" ++ Value.reprCommaList xs ++ "]"
  | .vdict ps => "\x7b" ++ Value.reprCommaPairs ps ++ "\x7d"

/-- Comma-separated `repr` of list elements. -/
def Value.reprCommaList : List Value → String
  | [] => ""
  | [x] => x.pyRepr
  | x :: y :: rest => x.pyRepr ++ ", " ++ Value.reprCommaList (y :: rest)

/-- Comma-separated `repr` of dict key/value pairs. -/
def Value.reprCommaPairs : List (Value × Value) → String
  | [] => ""
  | [(k, v)] => k.pyRepr ++ ": " ++ v.pyRepr
  | (k, v) :: p :: rest => k.pyRepr ++ ": " ++ v.pyRepr ++ ", " ++ Value.reprCommaPairs (p :: rest)

end

/-- Python `str(value)`: identical to `repr` except on top-level strings. -/
def Value.pyStr : Value → String
  | .vstr s => s
  | v => v.pyRepr

/-- Python typing annotations as inspected by `tools.py` (`get_origin` /
`get_args`): the plain types the module special-cases, the generic `list` /
`dict` / `tuple` / `set` forms, `Union` (which also covers `Optional`), and
`otherTy` for any annotation outside those (mapped to a generic value by the
source). -/
inductive PyType where
  | pystr
  | pyint
  | pyfloat
  | pybool
  | pylist
  | pydict
  | pynone
  | listOf (elem : PyType)
  | dictOf (key val : PyType)
  | tupleOf (elem : PyType)
  | setOf (elem : PyType)
  | unionOf (args : List PyType)
  | otherTy

/-- True exactly for the annotation `type(None)` (Python `NoneType`), the
check `arg is not type(None)` in the source. -/
def PyType.isNoneTy : PyType → Bool
  | .pynone => true
  | _ => false

mutual

/-- Rendering of an annotation, standing in for Python's f-string
interpolation of a typing object in error messages (the exact rendering is
cosmetic; no claim depends on it). -/
def PyType.render : PyType → String
  | .pystr => "str"
  | .pyint => "int"
  | .pyfloat => "float"
  | .pybool => "bool"
  | .pylist => "list"
  | .pydict => "dict"
  | .pynone => "NoneType"
  | .listOf t => "List[" ++ t.render ++ "]"
  | .dictOf k v => "Dict[" ++ k.render ++ ", " ++ v.render ++ "]"
  | .tupleOf t => "Tuple[" ++ t.render ++ "]"
  | .setOf t => "Set[" ++ t.render ++ "]"
  | .unionOf args => "Union[" ++ PyType.renderCommaList args ++ "]"
  | .otherTy => "Any"

/-- Comma-separated rendering of a list of annotations. -/
def PyType.renderCommaList : List PyType → String
  | [] => ""
  | [t] => t.render
  | t :: u :: rest => t.render ++ ", " ++ PyType.renderCommaList (u :: rest)

end

/-- Embeds `tools._get_json_schema_type`: maps a Python annotation to a JSON
schema type string.  Generic list/dict/tuple/set go to array/object; a
`Union` reduces to the schema type of its sole non-`None` argument and falls
back to "string" when several remain; everything else goes through the plain
`type_map` with default "string". -/
def getJsonSchemaType : PyType → String
  | .pystr => "string"
  | .pyint => "integer"
  | .pyfloat => "number"
  | .pybool => "boolean"
  | .pylist => "array"
  | .pydict => "object"
  | .listOf _ => "array"
  | .dictOf _ _ => "object"
  | .tupleOf _ => "array"
  | .setOf _ => "array"
  | .unionOf args =>
      match h : args.filter (fun a => !a.isNoneTy) with
      | [t] => getJsonSchemaType t
      | _ => "string"
  | .pynone => "string"
  | .otherTy => "string"
decreasing_by
  have ht : t ∈ args := by
    have hmem : t ∈ args.filter (fun a => !a.isNoneTy) := by
      rw [h]; exact List.mem_singleton_self t
    exact List.mem_of_mem_filter hmem
  have := List.sizeOf_lt_of_mem ht
  simp only [PyType.unionOf.sizeOf_spec]
  omega

/-- Embeds `tools._is_instance_of_type`: best-effort runtime check of a value
against an annotation.  Mirrors the source: plain types use `isinstance`
(note Python's `bool` is a subclass of `int`); `Union` accepts `None` when
`NoneType` is among the alternatives and otherwise tries every non-`None`
alternative; list/tuple/set check the container kind then at most the first
five elements; dict checks at most the first five key/value pairs; anything
else is accepted. -/
def isInstanceOfType : Value → PyType → Bool
  | v, .pystr => match v with | .vstr _ => true | _ => false
  | v, .pyint => match v with | .vint _ => true | .vbool _ => true | _ => false
  | _, .pyfloat => false
  | v, .pybool => match v with | .vbool _ => true | _ => false
  | v, .pylist => match v with | .vlist _ => true | _ => false
  | v, .pydict => match v with | .vdict _ => true | _ => false
  | v, .pynone => v.isNone
  | v, .unionOf args =>
      (v.isNone && args.any (fun a => a.isNoneTy)) ||
      args.attach.any (fun a => !a.1.isNoneTy && isInstanceOfType v a.1)
  | v, .listOf elemTy =>
      match v with
      | .vlist xs => (xs.take 5).all (fun x => isInstanceOfType x elemTy)
      | _ => false
  | _, .tupleOf _ => false
  | _, .setOf _ => false
  | v, .dictOf keyTy valTy =>
      match v with
      | .vdict ps =>
          (ps.take 5).all
            (fun p => isInstanceOfType p.1 keyTy && isInstanceOfType p.2 valTy)
      | _ => false
  | _, .otherTy => true
termination_by v t => sizeOf t
decreasing_by
  · have := List.sizeOf_lt_of_mem a.2
    simp only [PyType.unionOf.sizeOf_spec]
    omega
  · simp only [PyType.listOf.sizeOf_spec]
    omega
  · simp only [PyType.dictOf.sizeOf_spec]
    omega
  · simp only [PyType.dictOf.sizeOf_spec]
    omega

/-- Embeds `microagent/exceptions.py`: the classified error kinds.  Every
kind is a subclass of `AgentError` in the source, so a single inductive with
one constructor per kind is the faithful image; the `String` argument is the
exception's message (Python `str(e)`).  Note the source defines NO
`ToolNotFound` kind. -/
inductive AgentError where
  | toolExecutionError (m : String)
  | invalidToolArguments (m : String)
  | maxStepsExceeded (m : String)
  | llmError (m : String)
deriving DecidableEq

/-- Python `str(e)` on an `AgentError`: the message it was built with. -/
def AgentError.msg : AgentError → String
  | .toolExecutionError m => m
  | .invalidToolArguments m => m
  | .maxStepsExceeded m => m
  | .llmError m => m

/-- Python `type(e).__name__` for the modelled exceptions. -/
def AgentError.typeName : AgentError → String
  | .toolExecutionError _ => "ToolExecutionError"
  | .invalidToolArguments _ => "InvalidToolArguments"
  | .maxStepsExceeded _ => "MaxStepsExceeded"
  | .llmError _ => "LLMError"

/-- The rendering used both by `Tracer.log_tool_result` and `Tracer.end_run`
for an exception: the Python f-string of type name and message. -/
def AgentError.errString (e : AgentError) : String :=
  e.typeName ++ ": " ++ e.msg

/-- One declared parameter of a native callable as `inspect.signature`
reports it: its name, its annotation (`none` models
`inspect.Parameter.empty`) and whether it carries a default value. -/
structure Param where
  name : String
  ann : Option PyType
  hasDefault : Bool

/-- The per-parameter JSON schema entry built by the `tool` decorator. -/
structure ParamInfo where
  type : String
  description : String

/-- The `parameters` object built by the `tool` decorator: ordered
`properties` (name to entry) and the `required` name list.  The constant
`"type": "object"` field is omitted. -/
structure ParamsSchema where
  properties : List (String × ParamInfo)
  required : List String

/-- The schema entry for one parameter, as the loop body of the `tool`
decorator builds it: type "string" by default, replaced via
`_get_json_schema_type` when an annotation is present; descriptions are the
empty-string placeholder of the source. -/
def paramInfo (p : Param) : ParamInfo :=
  { type :=
      match p.ann with
      | none => "string"
      | some t => getJsonSchemaType t
    description := "" }

/-- Embeds the parameter-schema loop of the `tool` decorator
(`tools.py`, `def tool`): walks the signature's parameters in order,
skipping `self`; every kept parameter gets a property entry, and is listed
as required exactly when its default is `inspect.Parameter.empty`. -/
def genParameters (params : List Param) : ParamsSchema :=
  params.foldl
    (fun acc p =>
      if p.name = "self" then acc
      else
        { properties := acc.properties ++ [(p.name, paramInfo p)]
          required := if p.hasDefault then acc.required else acc.required ++ [p.name] })
    ⟨[], []⟩

/-- Outcome of running a native function: a returned value, or a raised
exception carrying its Python type name and message. -/
inductive ExecOutcome where
  | ok (v : Value)
  | exc (excType excMsg : String)

/-- Embeds the contract of `inspect.Signature.bind(**kwargs)` as
`Tool.__call__` uses it (the agent always calls tools with keyword arguments
only): CPython first walks the parameters and raises `TypeError` at the
first parameter that has no default and no matching keyword, then raises
`TypeError` for the first leftover unexpected keyword; on success the bound
arguments are exactly the explicitly passed ones, in parameter order
(defaults are not filled in by `bind`). -/
def bindKwargs (params : List Param) (kwargs : List (String × Value)) :
    Except String (List (String × Value)) :=
  match params.find? (fun p => !p.hasDefault && kwargs.all (fun kv => kv.1 != p.name)) with
  | some p => .error ("missing a required argument: \x27" ++ p.name ++ "\x27")
  | none =>
    match kwargs.find? (fun kv => params.all (fun p => p.name != kv.1)) with
    | some kv => .error ("got an unexpected keyword argument \x27" ++ kv.1 ++ "\x27")
    | none =>
      .ok (params.filterMap (fun p => (kwargs.find? (fun kv => kv.1 == p.name)).map
        (fun kv => (p.name, kv.2))))

/-- Embeds the `Tool` dataclass of `tools.py`: a named callable with its
signature (as `inspect.signature` reports it) and the generated parameter
schema.  The native function body is modelled as a function from the bound
arguments to an `ExecOutcome`.  The `strict` field of the dataclass is
carried for fidelity although `__call__` never reads it. -/
structure Tool where
  name : String
  params : List Param
  func : List (String × Value) → ExecOutcome
  description : String
  parameters : ParamsSchema
  strict : Bool

/-- The type-check loop of `Tool.__call__`: walks the bound arguments in
order; a name outside the signature hits the defensive branch; parameters
without annotation, or arguments whose value is `None`, are skipped; the
first annotated argument failing `_is_instance_of_type` produces the
`InvalidToolArguments` naming the parameter, the expected annotation and the
runtime type name. -/
def Tool.typeCheckFailure (t : Tool) (bound : List (String × Value)) : Option AgentError :=
  bound.findSome? (fun pv =>
    match t.params.find? (fun p => p.name == pv.1) with
    | none =>
        some (AgentError.invalidToolArguments
          ("Unexpected argument \x27" ++ pv.1 ++ "\x27 for tool \x27" ++ t.name ++ "\x27"))
    | some p =>
      match p.ann with
      | none => none
      | some ty =>
        if pv.2.isNone then none
        else if isInstanceOfType pv.2 ty then none
        else
          some (AgentError.invalidToolArguments
            ("Invalid type for argument \x27" ++ pv.1 ++ "\x27 in tool \x27" ++ t.name ++
             "\x27: expected " ++ ty.render ++ ", got " ++ pv.2.pyTypeName)))

/-- Embeds `Tool.__call__` for keyword arguments (the only way the agent
invokes tools): bind against the signature, surfacing binding failures as
`InvalidToolArguments`; then type-check the bound arguments; then run the
native function, rewrapping any exception it raises as `ToolExecutionError`
carrying the original type name and message. -/
def Tool.call (t : Tool) (kwargs : List (String × Value)) : Except AgentError Value :=
  match bindKwargs t.params kwargs with
  | .error m =>
      .error (.invalidToolArguments
        ("Invalid arguments for tool \x27" ++ t.name ++ "\x27: " ++ m))
  | .ok bound =>
    match t.typeCheckFailure bound with
    | some e => .error e
    | none =>
      match t.func bound with
      | .ok v => .ok v
      | .exc ty m =>
          .error (.toolExecutionError
            ("Error executing tool \x27" ++ t.name ++ "\x27: " ++ ty ++ ": " ++ m))

/-- The wire form of a tool call's `arguments` field: a JSON string that
either parses to a keyword mapping (`json.loads` succeeds) or is malformed
(`json.loads` raises `JSONDecodeError`; `raw` carries the decode error's
text, interpolated into the `InvalidToolArguments` message). -/
inductive ArgsWire where
  | parsed (kwargs : List (String × Value))
  | malformed (raw : String)

/-- A tool-invocation request as the gateway emits it: the source's
`tool_call` dict flattened (`id`, `function.name`, `function.arguments`);
the constant `"type": "function"` field is omitted.  `id` is optional
because the loop reads it with `tool_call.get("id")`. -/
structure ToolCall where
  id : Option String
  name : String
  args : ArgsWire

/-- Embeds the `Message` TypedDict of `llm.py`. -/
structure Message where
  role : String
  content : Option String
  tool_calls : Option (List ToolCall)
  tool_call_id : Option String

/-- Embeds `InMemoryMemory` of `memory.py` at the value level: the message
list and the optional retention bound. -/
structure InMemoryMemory where
  messages : List Message
  max_messages : Option Nat

/-- The `while len(self._messages) > self.max_messages: self._messages.pop(0)`
loop of `InMemoryMemory.add`. -/
def enforceLimit (maxM : Nat) (msgs : List Message) : List Message :=
  if msgs.length > maxM then enforceLimit maxM msgs.tail else msgs
termination_by msgs.length
decreasing_by
  rename_i hgt
  simp at hgt
  cases msgs with
  | nil => simp at hgt
  | cons m rest => simp

/-- Embeds `InMemoryMemory.add`: append the new message, then evict from the
front while over the configured bound. -/
def InMemoryMemory.add (mem : InMemoryMemory) (role : String) (content : Option String)
    (tool_calls : Option (List ToolCall)) (tool_call_id : Option String) : InMemoryMemory :=
  let msgs := mem.messages ++ [⟨role, content, tool_calls, tool_call_id⟩]
  match mem.max_messages with
  | none => { mem with messages := msgs }
  | some maxM => { mem with messages := enforceLimit maxM msgs }

/-- Python's `xs[-limit:]` on a non-negative `limit`: the last `limit`
elements — except that `limit = 0` gives `xs[0:]`, the WHOLE list, because
`-0 == 0`. -/
def lastSlice (limit : Nat) (xs : List α) : List α :=
  if limit = 0 then xs else xs.drop (xs.length - limit)

/-- Embeds `InMemoryMemory.get_messages` at the value level: all messages,
or `self._messages[-limit:]` when a limit is given.  (The per-message
`msg.copy()` of the source is about object identity and is modelled
separately by `HeapMemory` below.) -/
def InMemoryMemory.get_messages (mem : InMemoryMemory) (limit : Option Nat) : List Message :=
  match limit with
  | none => mem.messages
  | some l => lastSlice l mem.messages

/-- Embeds `InMemoryMemory.clear`. -/
def InMemoryMemory.clear (mem : InMemoryMemory) : InMemoryMemory :=
  { mem with messages := [] }

/-- Trace steps of `tracing.py` (`StepType` + `TraceStep.data`): the payload
kept is the part the source stores that the model needs — for an LLM call
the message snapshot and the registered tool names, for a tool call the
parsed arguments, for a tool result the result text and the optional
rendered error.  Timestamps are omitted. -/
inductive TraceStep where
  | llm_call (messages : List Message) (toolNames : List String)
  | tool_call (toolName : String) (arguments : List (String × Value))
  | tool_result (toolName : String) (result : Option String) (error : Option String)

/-- True on steps whose recorded payload carries an error. -/
def TraceStep.hasError : TraceStep → Bool
  | .tool_result _ _ (some _) => true
  | _ => false

/-- True on model-call steps. -/
def TraceStep.isLlmCall : TraceStep → Bool
  | .llm_call _ _ => true
  | _ => false

/-- Embeds `RunTrace` of `tracing.py` (run id and times omitted). -/
structure RunTrace where
  input : String
  output : Option String
  error : Option String
  steps : List TraceStep

/-- Embeds `Tracer` of `tracing.py`. -/
structure Tracer where
  enabled : Bool
  current_run : Option RunTrace

/-- Embeds `Tracer.start_run`: a no-op when disabled, else install a fresh
`RunTrace`, discarding any previous one. -/
def Tracer.start_run (tr : Tracer) (inputText : String) : Tracer :=
  if tr.enabled then { tr with current_run := some ⟨inputText, none, none, []⟩ } else tr

/-- Embeds `Tracer.end_run`: a no-op when disabled or no run is active; else
stamp the output, and overwrite the recorded error only when one is given
(rendered as type name + message). -/
def Tracer.end_run (tr : Tracer) (output : Option String) (error : Option AgentError) : Tracer :=
  match tr.enabled, tr.current_run with
  | true, some rt =>
      { tr with
        current_run := some
          { rt with
            output := output
            error :=
              match error with
              | some e => some e.errString
              | none => rt.error } }
  | _, _ => tr

/-- Embeds `Tracer._add_step`: a no-op when disabled or no run is active. -/
def Tracer.addStep (tr : Tracer) (s : TraceStep) : Tracer :=
  match tr.enabled, tr.current_run with
  | true, some rt => { tr with current_run := some { rt with steps := rt.steps ++ [s] } }
  | _, _ => tr

/-- Appending a batch of steps in order. -/
def Tracer.addSteps (tr : Tracer) (ss : List TraceStep) : Tracer :=
  ss.foldl Tracer.addStep tr

/-- Number of model-call steps recorded in the current run. -/
def Tracer.llmCallCount (tr : Tracer) : Nat :=
  match tr.current_run with
  | some rt => (rt.steps.filter TraceStep.isLlmCall).length
  | none => 0

/-- A structured gateway reply (`LLMResponse` of `llm.py`, raw response
omitted), or the exception `llm.complete` raised. -/
structure LLMResponse where
  content : Option String
  tool_calls : List ToolCall

/-- Result of one call to the Language-Model Gateway. -/
inductive GwResult where
  | ok (resp : LLMResponse)
  | exc (excMsg : String)

/-- The gateway: a black-box map from the conversation snapshot to a reply
or a failure (`BaseLLM.complete`). -/
abbrev Gateway := List Message → GwResult

/-- Embeds the configuration of the `Agent` class of `agent.py`: the
registered tools (a name-keyed dict, modelled as a list with unique names —
`_register_tools` skips duplicates), `max_steps` and `strict`. -/
structure Agent where
  tools : List Tool
  max_steps : Nat
  strict : Bool

/-- Dict lookup `self.tools[tool_name]` / `tool_name not in self.tools`. -/
def Agent.findTool (ag : Agent) (n : String) : Option Tool :=
  ag.tools.find? (fun t => t.name == n)

/-- `list(self.tools.values())` reduced to the names (what the trace model
keeps of the tool descriptors). -/
def Agent.toolNames (ag : Agent) : List String :=
  ag.tools.map Tool.name

/-- The mutable state the loop threads: the conversation store and the
tracer. -/
structure AgentState where
  memory : InMemoryMemory
  tracer : Tracer

/-- Embeds `Agent._execute_tool`.  Returns the trace steps the call logs (in
order) and either the text result (the non-strict paths return error text as
the result) or the raised `AgentError` (strict paths).  Mirrors the
exception nesting of the source: the strict raise for a lookup failure
(line 110) and the strict re-raise from the inner handler (line 133) both
happen inside the outer `try`, so the function's own generic
`except Exception` (lines 142-147) re-catches them, rewraps as
`ToolExecutionError("Tool execution failed: <str(e)>")`, logs one more
tool-result step, and only then re-raises; the non-strict lookup failure is
a plain `return` (no step logged, nothing caught), and the strict raise for
a JSON decode failure happens inside a SIBLING handler of the same `try`,
so it propagates as `InvalidToolArguments` unchanged with only the
"unknown" step. -/
def Agent.execute_tool (ag : Agent) (tc : ToolCall) :
    List TraceStep × Except AgentError String :=
  match ag.findTool tc.name with
  | none =>
    let error_msg := "Tool \x27" ++ tc.name ++ "\x27 not found"
    if ag.strict then
      let wrapped : AgentError := .toolExecutionError ("Tool execution failed: " ++ error_msg)
      ([TraceStep.tool_result tc.name none (some wrapped.errString)], .error wrapped)
    else ([], .ok error_msg)
  | some t =>
    match tc.args with
    | .malformed raw =>
      let e : AgentError := .invalidToolArguments ("Invalid JSON in tool arguments: " ++ raw)
      ([TraceStep.tool_result "unknown" none (some e.errString)],
       if ag.strict then .error e else .ok e.msg)
    | .parsed kwargs =>
      match t.call kwargs with
      | .ok v =>
          ([TraceStep.tool_call tc.name kwargs,
            TraceStep.tool_result tc.name (some v.pyStr) none],
           .ok v.pyStr)
      | .error e0 =>
        let e : AgentError :=
          .toolExecutionError ("Error executing tool \x27" ++ tc.name ++ "\x27: " ++ e0.msg)
        if ag.strict then
          let wrapped : AgentError := .toolExecutionError ("Tool execution failed: " ++ e.msg)
          ([TraceStep.tool_call tc.name kwargs,
            TraceStep.tool_result tc.name none (some e.errString),
            TraceStep.tool_result tc.name none (some wrapped.errString)],
           .error wrapped)
        else
          ([TraceStep.tool_call tc.name kwargs,
            TraceStep.tool_result tc.name none (some e.errString)],
           .ok e.msg)

/-- The `for tool_call in response["tool_calls"]` body of `Agent._run_loop`:
append the assistant message carrying the single request, execute it, append
the tool-result message referencing its id; a raised error interrupts the
batch and is handed to the surrounding `except` (`some e`). -/
def Agent.processToolCalls (ag : Agent) : List ToolCall → AgentState → AgentState × Option AgentError
  | [], st => (st, none)
  | tc :: rest, st =>
    let st1 : AgentState :=
      { st with memory := st.memory.add "assistant" none (some [tc]) none }
    let out := ag.execute_tool tc
    let st2 : AgentState := { st1 with tracer := st1.tracer.addSteps out.1 }
    match out.2 with
    | .ok text =>
        ag.processToolCalls rest
          { st2 with memory := st2.memory.add "tool" (some text) none tc.id }
    | .error e => (st2, some e)

/-- Embeds `Agent._run_loop`, with the remaining iteration count of
`range(self.max_steps)` as fuel.  Each iteration: snapshot the history, log
the model call, call the gateway; a gateway exception — or any error raised
while processing tool calls, since the `try` block spans both — is wrapped
as `LLMError("Error in LLM communication: ...")`, raised in strict mode and
returned as the final text otherwise; a response with tool calls processes
them and continues; a response whose `content` is truthy is appended,
recorded via `end_run`, and returned; a response with neither falls through
to the next iteration.  Exhausted fuel ends the trace with
`MaxStepsExceeded` and raises it. -/
def Agent.run_loop (ag : Agent) (gw : Gateway) :
    Nat → AgentState → AgentState × Except AgentError String
  | 0, st =>
    let e : AgentError :=
      .maxStepsExceeded ("Maximum number of steps (" ++ toString ag.max_steps ++ ") reached")
    ({ st with tracer := st.tracer.end_run none (some e) }, .error e)
  | fuel + 1, st =>
    let msgs := st.memory.get_messages none
    let st1 : AgentState := { st with tracer := st.tracer.addStep (.llm_call msgs ag.toolNames) }
    match gw msgs with
    | .exc m =>
      let e : AgentError := .llmError ("Error in LLM communication: " ++ m)
      if ag.strict then (st1, .error e) else (st1, .ok e.msg)
    | .ok resp =>
      if resp.tool_calls.isEmpty then
        match resp.content with
        | some s =>
          if s == "" then ag.run_loop gw fuel st1
          else
            let st2 : AgentState :=
              { st1 with
                memory := st1.memory.add "assistant" (some s) none none
                tracer := st1.tracer.end_run (some s) none }
            (st2, .ok s)
        | none => ag.run_loop gw fuel st1
      else
        match ag.processToolCalls resp.tool_calls st1 with
        | (st2, none) => ag.run_loop gw fuel st2
        | (st2, some e0) =>
          let e : AgentError := .llmError ("Error in LLM communication: " ++ e0.msg)
          if ag.strict then (st2, .error e) else (st2, .ok e.msg)

/-- Result of the public `run`: the final answer, or the exception that
propagated to the caller. -/
inductive RunOutcome where
  | ok (answer : String)
  | raised (e : AgentError)
deriving DecidableEq

/-- Embeds `Agent.run`: start a trace, append the user message, run the
loop; a raised error is recorded via `end_run` and re-raised (every raised
error in the model is an `AgentError`, so the `isinstance` re-raise branch
always applies). -/
def Agent.run (ag : Agent) (gw : Gateway) (st : AgentState) (message : String) :
    AgentState × RunOutcome :=
  let tr := st.tracer.start_run message
  let mem := st.memory.add "user" (some message) none none
  match ag.run_loop gw ag.max_steps { memory := mem, tracer := tr } with
  | (st1, .ok s) => (st1, .ok s)
  | (st1, .error e) =>
      ({ st1 with tracer := st1.tracer.end_run none (some e) }, .raised e)

/-- Placeholder message used as the out-of-range default of heap lookups. -/
def defaultMsg : Message := ⟨"", none, none, none⟩

/-- Heap-level model of `InMemoryMemory`, making message-object identity
explicit so the `msg.copy()` in `get_messages` is expressible: `cells` is a
heap of message objects addressed by index, and `refs` is the store's
internal `_messages` list, holding references into the heap.  Mutating a
message object is `write`; the store's observable content is `view`. -/
structure HeapMemory where
  cells : List Message
  refs : List Nat
  max_messages : Option Nat

/-- Dereference one address. -/
def HeapMemory.cellAt (h : HeapMemory) (a : Nat) : Message :=
  h.cells.getD a defaultMsg

/-- The store's observable content: its internal references, dereferenced. -/
def HeapMemory.view (h : HeapMemory) : List Message :=
  h.refs.map h.cellAt

/-- Well-formedness: every internal reference points into the heap. -/
def HeapMemory.WF (h : HeapMemory) : Prop :=
  ∀ r ∈ h.refs, r < h.cells.length

/-- Embeds `InMemoryMemory.get_messages` at the heap level: select all
references, or `self._messages[-limit:]`; then return `msg.copy()` for each
— a FRESH object per message, allocated at the end of the heap, carrying the
same field values.  Returns the updated heap-store and the list of fresh
addresses handed to the caller. -/
def HeapMemory.get_messages (h : HeapMemory) (limit : Option Nat) :
    HeapMemory × List Nat :=
  let sel : List Nat :=
    match limit with
    | none => h.refs
    | some l => lastSlice l h.refs
  let vals := sel.map h.cellAt
  ({ h with cells := h.cells ++ vals }, List.range' h.cells.length vals.length)

/-- Mutation of one message object in place. -/
def HeapMemory.write (h : HeapMemory) (a : Nat) (v : Message) : HeapMemory :=
  { h with cells := h.cells.set a v }

/-! Concrete fixtures used by counterexamples and witnesses. -/

/-- A single required unannotated parameter named `x`. -/
def paramX : Param := ⟨"x", none, false⟩

/-- A working tool that echoes its lone string argument. -/
def echoTool : Tool :=
  { name := "echo"
    params := [paramX]
    func := fun bound =>
      match bound with
      | [(_, v)] => .ok v
      | _ => .exc "RuntimeError" "bad call"
    description := "echo back"
    parameters := genParameters [paramX]
    strict := false }

/-- A strict agent with no registered tools. -/
def agentStrictNoTools : Agent := ⟨[], 3, true⟩

/-- A non-strict agent with no registered tools. -/
def agentLaxNoTools : Agent := ⟨[], 3, false⟩

/-- A strict agent owning the echo tool. -/
def agentStrictEcho : Agent := ⟨[echoTool], 3, true⟩

/-- A request for a tool name that is not registered. -/
def tcMissing : ToolCall := ⟨some "call-1", "missing", .parsed []⟩

/-- A well-formed request for the echo tool. -/
def tcEcho : ToolCall := ⟨some "call-2", "echo", .parsed [("x", .vstr "hi")]⟩

/-- Fresh agent state with tracing enabled. -/
def stEnabled : AgentState := ⟨⟨[], none⟩, ⟨true, none⟩⟩

/-- A gateway that always requests the unregistered tool. -/
def gwMissingTool : Gateway := fun _ => .ok ⟨none, [tcMissing]⟩

/-- A gateway that always requests the echo tool. -/
def gwEchoTool : Gateway := fun _ => .ok ⟨none, [tcEcho]⟩

/-- A gateway whose call always raises. -/
def gwBoom : Gateway := fun _ => .exc "boom"

/-- A gateway that requests the unregistered tool on the first call (the
history then holds only the user message) and answers "done" afterwards. -/
def gwOnceMissingThenDone : Gateway := fun msgs =>
  if msgs.length ≤ 1 then .ok ⟨none, [tcMissing]⟩ else .ok ⟨some "done", []⟩

/-- A gateway that always answers with final text. -/
def gwDone : Gateway := fun _ => .ok ⟨some "done", []⟩

/-- A gateway whose response carries both final text and a tool request. -/
def gwBothTextAndTool : Gateway := fun _ => .ok ⟨some "ignored", [tcMissing]⟩

/-! ### C4 — classification of a tool-lookup failure -/

/-- C4, counterexample: the claim says looking up an unregistered tool name
yields the classified kind `ToolNotFound`; but `exceptions.py` defines no
such kind, and in strict mode the raise of agent.py line 110 is re-caught by
the function's own outer handler (lines 142-147), which logs a tool-result
step and re-raises `ToolExecutionError("Tool execution failed: Tool
'missing' not found")` — here shown on the concrete unregistered name
"missing" (the non-strict half, conversion to the plain text message, does
behave as claimed). -/
theorem c4_lookup_failure_counterexample :
    agentStrictNoTools.execute_tool tcMissing =
      ([TraceStep.tool_result "missing" none
          (some "ToolExecutionError: Tool execution failed: Tool \x27missing\x27 not found")],
       .error (.toolExecutionError "Tool execution failed: Tool \x27missing\x27 not found")) ∧
    agentLaxNoTools.execute_tool tcMissing =
      ([], .ok "Tool \x27missing\x27 not found") ∧
    (∀ m m' : String, AgentError.toolExecutionError m ≠ AgentError.invalidToolArguments m') := by
  refine ⟨rfl, rfl, ?_⟩
  intro m m' h
  exact AgentError.noConfusion h

/-- C4, amended: invoking an unregistered tool name yields the
classification `ToolExecutionError` (the error taxonomy has no
`ToolNotFound` kind): in strict mode the raise is re-caught by the
function's outer handler, which logs one error-carrying tool-result step
and re-raises the rewrapped
`ToolExecutionError("Tool execution failed: Tool '<name>' not found")`;
in non-strict mode the plain `Tool '<name>' not found` text is returned as
the tool result, with no trace step, so the loop can continue. -/
theorem c4_lookup_failure_amended (ag : Agent) (tc : ToolCall)
    (h : ag.findTool tc.name = none) :
    (let error_msg := "Tool \x27" ++ tc.name ++ "\x27 not found"
     let wrapped : AgentError := .toolExecutionError ("Tool execution failed: " ++ error_msg)
     ag.execute_tool tc =
       if ag.strict then
         ([TraceStep.tool_result tc.name none (some wrapped.errString)], .error wrapped)
       else ([], .ok error_msg)) := by
  unfold Agent.execute_tool
  rw [h]

/-- C4, witness: the amended theorem applied at the concrete unregistered
name "missing" against the strict no-tool agent. -/
theorem c4_lookup_failure_witness :
    agentStrictNoTools.execute_tool tcMissing =
      ([TraceStep.tool_result "missing" none
          (some "ToolExecutionError: Tool execution failed: Tool \x27missing\x27 not found")],
       .error (.toolExecutionError "Tool execution failed: Tool \x27missing\x27 not found")) := by
  have h := c4_lookup_failure_amended agentStrictNoTools tcMissing rfl
  exact h

/-! ### C5 — binding atomicity -/

/-- C5: for every tool, argument set missing a required parameter or
carrying an unknown extra key, `Tool.__call__` raises `InvalidToolArguments`
and the underlying native function is never consulted: the result is the
same binding error for EVERY possible function body, so no call (not even a
partial one) can have happened, and the rejection precedes any type check
(the conclusion holds whatever the annotations would say about the
values). -/
theorem c5_binding_atomicity (t : Tool) (kwargs : List (String × Value))
    (h : (∃ p ∈ t.params, p.hasDefault = false ∧ ∀ kv ∈ kwargs, kv.1 ≠ p.name) ∨
         (∃ kv ∈ kwargs, ∀ p ∈ t.params, p.name ≠ kv.1)) :
    ∃ m, ∀ f : List (String × Value) → ExecOutcome,
      Tool.call { t with func := f } kwargs =
        .error (.invalidToolArguments
          ("Invalid arguments for tool \x27" ++ t.name ++ "\x27: " ++ m)) := by
  suffices hb : ∃ m, bindKwargs t.params kwargs = .error m by
    obtain ⟨m, hm⟩ := hb
    refine ⟨m, fun f => ?_⟩
    unfold Tool.call
    rw [show ({ t with func := f } : Tool).params = t.params from rfl, hm]
  unfold bindKwargs
  cases hf : t.params.find? (fun p => !p.hasDefault && kwargs.all (fun kv => kv.1 != p.name)) with
  | some p => exact ⟨_, rfl⟩
  | none =>
    rcases h with ⟨p, hp, hd, hnone⟩ | ⟨kv, hkv, hno⟩
    · exfalso
      rw [List.find?_eq_none] at hf
      apply hf p hp
      simp only [hd, Bool.not_false, Bool.true_and, List.all_eq_true, bne_iff_ne]
      intro kv hkv
      exact hnone kv hkv
    · have hsome : (kwargs.find? (fun kv => t.params.all (fun p => p.name != kv.1))).isSome := by
        rw [List.find?_isSome]
        refine ⟨kv, hkv, ?_⟩
        simp only [List.all_eq_true, bne_iff_ne]
        intro p hp
        exact hno p hp
      obtain ⟨kv0, hkv0⟩ := Option.isSome_iff_exists.mp hsome
      rw [hkv0]
      exact ⟨_, rfl⟩

/-- C5, witness: invoking the echo tool (one required parameter `x`) with no
arguments is rejected as `InvalidToolArguments` for every possible function
body. -/
theorem c5_binding_atomicity_witness :
    ∃ m, ∀ f : List (String × Value) → ExecOutcome,
      Tool.call { echoTool with func := f } [] =
        .error (.invalidToolArguments ("Invalid arguments for tool \x27echo\x27: " ++ m)) := by
  have h := c5_binding_atomicity echoTool []
    (Or.inl ⟨paramX, List.mem_singleton_self paramX, rfl,
      fun kv hkv => absurd hkv (List.not_mem_nil kv)⟩)
  exact h

/-! ### C7 — schema generation -/

/-- The accumulator-generalized unrolling of the parameter loop in the
`tool` decorator. -/
theorem genParameters_foldl (params : List Param) (acc : ParamsSchema) :
    params.foldl
      (fun acc p =>
        if p.name = "self" then acc
        else
          { properties := acc.properties ++ [(p.name, paramInfo p)]
            required := if p.hasDefault then acc.required else acc.required ++ [p.name] }) acc =
    ⟨acc.properties ++
       (params.filter (fun p => p.name != "self")).map (fun p => (p.name, paramInfo p)),
     acc.required ++
       (params.filter (fun p => p.name != "self" && !p.hasDefault)).map Param.name⟩ := by
  induction params generalizing acc with
  | nil => simp
  | cons p rest ih =>
    by_cases hp : p.name = "self"
    · simp [hp, ih, List.filter_cons]
    · by_cases hd : p.hasDefault
      · simp [hp, hd, ih, List.filter_cons]
      · simp [hp, hd, ih, List.filter_cons]

/-- C7: the generated schema lists exactly the defaultless (non-`self`)
parameters as required and gives every kept parameter the schema type
derived from its annotation ("string" when unannotated); the plain types map
as claimed; and a `Union` annotation reduces to the schema type of its sole
non-`None` alternative, falling back to "string" when several remain. -/
theorem c7_schema_generation :
    (∀ params : List Param,
      (genParameters params).properties =
        (params.filter (fun p => p.name != "self")).map (fun p => (p.name, paramInfo p)) ∧
      (genParameters params).required =
        (params.filter (fun p => p.name != "self" && !p.hasDefault)).map Param.name) ∧
    (∀ p : Param, p.ann = none → (paramInfo p).type = "string") ∧
    (∀ p : Param, ∀ ty, p.ann = some ty → (paramInfo p).type = getJsonSchemaType ty) ∧
    getJsonSchemaType .pystr = "string" ∧
    getJsonSchemaType .pyint = "integer" ∧
    getJsonSchemaType .pyfloat = "number" ∧
    getJsonSchemaType .pybool = "boolean" ∧
    getJsonSchemaType .pylist = "array" ∧
    getJsonSchemaType .pydict = "object" ∧
    (∀ args t, args.filter (fun a => !a.isNoneTy) = [t] →
      getJsonSchemaType (.unionOf args) = getJsonSchemaType t) ∧
    (∀ args, 2 ≤ (args.filter (fun a => !a.isNoneTy)).length →
      getJsonSchemaType (.unionOf args) = "string") := by
  refine ⟨?_, ?_, ?_, by simp [getJsonSchemaType], by simp [getJsonSchemaType],
    by simp [getJsonSchemaType], by simp [getJsonSchemaType], by simp [getJsonSchemaType],
    by simp [getJsonSchemaType], ?_, ?_⟩
  · intro params
    have h := genParameters_foldl params ⟨[], []⟩
    unfold genParameters
    rw [h]
    exact ⟨by simp, by simp⟩
  · intro p hp
    unfold paramInfo
    rw [hp]
  · intro p ty hp
    unfold paramInfo
    rw [hp]
  · intro args t hfilter
    rw [getJsonSchemaType.eq_def]
    simp only []
    split
    · rename_i t' h'
      rw [hfilter] at h'
      cases h'
      rfl
    · rename_i h'
      exact absurd hfilter (by intro hc; exact h' t hc)
  · intro args hlen
    rw [getJsonSchemaType.eq_def]
    simp only []
    split
    · rename_i t' h'
      rw [h'] at hlen
      simp at hlen
    · rfl

/-- C7, witness: the theorem applied to a concrete signature — a required
annotated string, an optional integer, an unannotated parameter — and to the
concrete annotations `Optional[int]` and `Union[int, str]`. -/
theorem c7_schema_generation_witness :
    (genParameters [⟨"name", some .pystr, false⟩, ⟨"age", some .pyint, true⟩,
        ⟨"tag", none, true⟩]).required = ["name"] ∧
    getJsonSchemaType (.unionOf [.pyint, .pynone]) = "integer" ∧
    getJsonSchemaType (.unionOf [.pyint, .pystr, .pynone]) = "string" := by
  refine ⟨?_, ?_, ?_⟩
  · rw [(c7_schema_generation.1 [⟨"name", some .pystr, false⟩, ⟨"age", some .pyint, true⟩,
        ⟨"tag", none, true⟩]).2]
    rfl
  · rw [c7_schema_generation.2.2.2.2.2.2.2.2.2.1 [.pyint, .pynone] .pyint rfl]
    exact c7_schema_generation.2.2.2.2.1
  · exact c7_schema_generation.2.2.2.2.2.2.2.2.2.2 [.pyint, .pystr, .pynone] (by decide)

/-! ### C8 — bounded conversation store -/

/-- Replay of a sequence of `add` calls against a store (each element's
fields passed to `add` exactly as the loop callers do). -/
def addAll (mem : InMemoryMemory) (msgs : List Message) : InMemoryMemory :=
  msgs.foldl (fun acc m => acc.add m.role m.content m.tool_calls m.tool_call_id) mem

/-- The eviction loop of `add` is the suffix of the list that fits the
bound. -/
theorem enforceLimit_eq_drop (n : Nat) (xs : List Message) :
    enforceLimit n xs = xs.drop (xs.length - n) := by
  induction xs with
  | nil => rw [enforceLimit]; simp
  | cons m rest ih =>
    rw [enforceLimit]
    by_cases hgt : (m :: rest).length > n
    · have h1 : (m :: rest).length - n = (rest.length - n) + 1 := by
        simp only [List.length_cons] at hgt ⊢
        omega
      rw [if_pos hgt, List.tail_cons, ih, h1, List.drop_succ_cons]
    · have h0 : (m :: rest).length - n = 0 := by
        simp only [List.length_cons] at hgt ⊢
        omega
      rw [if_neg hgt, h0, List.drop_zero]

/-- Accumulator-generalized form: replaying appends against a bounded store
whose current content fits the bound leaves exactly the fitting suffix of
old content followed by appends. -/
theorem addAll_bounded (n : Nat) (adds : List Message) :
    ∀ (pre : List Message), pre.length ≤ n →
    (addAll ⟨pre, some n⟩ adds).messages =
      (pre ++ adds).drop (pre.length + adds.length - n) ∧
    (addAll ⟨pre, some n⟩ adds).max_messages = some n := by
  induction adds with
  | nil =>
    intro pre hpre
    refine ⟨?_, rfl⟩
    have h0 : pre.length - n = 0 := by omega
    simp [addAll, h0]
  | cons m rest ih =>
    intro pre hpre
    have hstep : addAll ⟨pre, some n⟩ (m :: rest) =
        addAll ⟨enforceLimit n (pre ++ [m]), some n⟩ rest := rfl
    rw [hstep, enforceLimit_eq_drop]
    have hlenapp : (pre ++ [m]).length = pre.length + 1 := by simp
    rw [hlenapp]
    obtain ⟨hmsg, hmax⟩ := ih ((pre ++ [m]).drop (pre.length + 1 - n)) (by
      rw [List.length_drop, hlenapp]; omega)
    refine ⟨?_, hmax⟩
    rw [hmsg]
    have hd : pre.length + 1 - n ≤ (pre ++ [m]).length := by rw [hlenapp]; omega
    rw [← List.drop_append_of_le_length hd, List.drop_drop]
    have hassoc : (pre ++ [m]) ++ rest = pre ++ m :: rest := by simp
    rw [hassoc]
    congr 1
    rw [List.length_drop, hlenapp]
    simp only [List.length_cons]
    omega

/-- C8: starting from an empty store bounded at `n`, any sequence of `k`
appends leaves exactly the last `min k n` appended messages, in their
original relative order (the suffix of the appended list), and the bound
holds after every intermediate append. -/
theorem c8_memory_bound (n : Nat) (adds : List Message) :
    (addAll ⟨[], some n⟩ adds).messages = adds.drop (adds.length - n) ∧
    (addAll ⟨[], some n⟩ adds).messages.length = min adds.length n ∧
    ∀ i : Nat, (addAll ⟨[], some n⟩ (adds.take i)).messages.length ≤ n := by
  have h := (addAll_bounded n adds [] (by simp)).1
  simp only [List.nil_append, List.length_nil, Nat.zero_add] at h
  refine ⟨h, ?_, ?_⟩
  · rw [h, List.length_drop]
    omega
  · intro i
    have hi := (addAll_bounded n (adds.take i) [] (by simp)).1
    simp only [List.nil_append, List.length_nil, Nat.zero_add] at hi
    rw [hi, List.length_drop]
    omega

/-! ### C9 — history snapshots -/

/-- Python's tail slice commutes with mapping. -/
theorem lastSlice_map (f : α → β) (l : Nat) (xs : List α) :
    lastSlice l (xs.map f) = (lastSlice l xs).map f := by
  unfold lastSlice
  by_cases h0 : l = 0
  · simp [h0]
  · rw [if_neg h0, if_neg h0, List.map_drop, List.length_map]

/-- Looking the freshly allocated addresses up in the extended heap yields
exactly the copied values. -/
theorem map_getD_range' (vals : List Message) :
    ∀ pre : List Message,
    (List.range' pre.length vals.length).map (fun a => (pre ++ vals).getD a defaultMsg) =
      vals := by
  induction vals with
  | nil => intro pre; simp
  | cons v vs ih =>
    intro pre
    simp only [List.length_cons]
    rw [List.range'_succ, List.map_cons]
    have h1 : (pre ++ v :: vs).getD pre.length defaultMsg = v := by
      rw [List.getD_append_right _ _ _ _ (Nat.le_refl _)]
      simp
    have h2 : pre ++ v :: vs = (pre ++ [v]) ++ vs := by simp
    have h3 : pre.length + 1 = (pre ++ [v]).length := by simp
    rw [h1, h2, h3, ih (pre ++ [v])]

/-- Writing outside the store's references leaves its observable content
unchanged. -/
theorem view_write_of_not_ref (h : HeapMemory) (a : Nat) (v : Message)
    (ha : ∀ r ∈ h.refs, r ≠ a) :
    (h.write a v).view = h.view := by
  unfold HeapMemory.view HeapMemory.write HeapMemory.cellAt
  apply List.map_congr_left
  intro r hr
  simp only [List.getD_eq_getElem?_getD]
  rw [List.getElem?_set_ne (ha r hr).symm]

/-- C9, counterexample fixtures: a two-message store. -/
def msgU : Message := ⟨"user", some "first", none, none⟩

/-- Second fixture message. -/
def msgV : Message := ⟨"assistant", some "second", none, none⟩

/-- A well-formed heap store holding `msgU` then `msgV`. -/
def heapUV : HeapMemory := ⟨[msgU, msgV], [0, 1], none⟩

/-- C9, counterexample: the claim says `get_messages` with limit `L` returns
the most recent `L` messages; but the source slices with `self._messages[-limit:]`
and Python's `-0 == 0`, so `limit = 0` returns ALL stored messages (here 2,
not 0). -/
theorem c9_snapshot_counterexample :
    ((heapUV.get_messages (some 0)).2).map (heapUV.get_messages (some 0)).1.cellAt =
      [msgU, msgV] ∧
    ([msgU, msgV] : List Message).length ≠ 0 := by
  constructor
  · rfl
  · simp

/-- C9, amended: `get_messages` returns all messages with no limit, the most
recent `L` with a limit `L ≥ 1` (limit `0` returns all, an artifact of the
`[-limit:]` slice); the returned objects are fresh copies, so the call
leaves the store unchanged and writing to any returned object does not
change the store's observable content — a subsequent `get_messages` still
reflects the original messages.  (Message fields are modelled as values;
the Python shallow copy additionally shares nested mutable field objects
such as the `tool_calls` list, which is outside this model.) -/
theorem c9_snapshot_amended (h : HeapMemory) (hwf : h.WF) :
    (((h.get_messages none).2).map (h.get_messages none).1.cellAt = h.view) ∧
    (∀ L, 1 ≤ L →
      ((h.get_messages (some L)).2).map (h.get_messages (some L)).1.cellAt =
        h.view.drop (h.view.length - L)) ∧
    (∀ lim, (h.get_messages lim).1.refs = h.refs ∧
      (h.get_messages lim).1.view = h.view) ∧
    (∀ lim a v, a ∈ (h.get_messages lim).2 →
      ((h.get_messages lim).1.write a v).view = h.view) := by
  have hvals : ∀ lim, ((h.get_messages lim).2).map (h.get_messages lim).1.cellAt =
      (match lim with
       | none => h.refs
       | some l => lastSlice l h.refs).map h.cellAt := by
    intro lim
    unfold HeapMemory.get_messages HeapMemory.cellAt
    simp only [List.length_map]
    have := map_getD_range'
      ((match lim with
        | none => h.refs
        | some l => lastSlice l h.refs).map h.cellAt) h.cells
    simp only [List.length_map] at this
    exact this
  have hview : ∀ lim, (h.get_messages lim).1.view = h.view := by
    intro lim
    unfold HeapMemory.view
    have hrefs : (h.get_messages lim).1.refs = h.refs := rfl
    rw [hrefs]
    apply List.map_congr_left
    intro r hr
    show (h.get_messages lim).1.cellAt r = h.cellAt r
    unfold HeapMemory.get_messages HeapMemory.cellAt
    exact List.getD_append _ _ _ _ (hwf r hr)
  refine ⟨?_, ?_, ?_, ?_⟩
  · rw [hvals none]
    rfl
  · intro L hL
    rw [hvals (some L)]
    show (lastSlice L h.refs).map h.cellAt =
      (h.refs.map h.cellAt).drop ((h.refs.map h.cellAt).length - L)
    rw [← lastSlice_map]
    unfold lastSlice
    rw [if_neg (by omega : ¬ L = 0)]
  · intro lim
    exact ⟨rfl, hview lim⟩
  · intro lim a v hmem
    have hge : h.cells.length ≤ a := by
      unfold HeapMemory.get_messages at hmem
      rw [List.mem_range'] at hmem
      obtain ⟨i, _, hi⟩ := hmem
      omega
    have hne : ∀ r ∈ (h.get_messages lim).1.refs, r ≠ a := by
      intro r hr
      have hr2 : r ∈ h.refs := by
        have hrefs : (h.get_messages lim).1.refs = h.refs := rfl
        rw [hrefs] at hr
        exact hr
      have := hwf r hr2
      omega
    rw [view_write_of_not_ref _ _ _ hne, hview lim]

/-- C9, witness: the amended theorem applied to the concrete two-message
store, reading the full history and the most recent single message, and
overwriting a returned copy without disturbing the store. -/
theorem c9_snapshot_witness :
    (((heapUV.get_messages none).2).map (heapUV.get_messages none).1.cellAt =
      [msgU, msgV]) ∧
    (((heapUV.get_messages (some 1)).2).map (heapUV.get_messages (some 1)).1.cellAt =
      [msgV]) ∧
    (((heapUV.get_messages none).1.write 2 msgV).view = [msgU, msgV]) := by
  have hwf : heapUV.WF := by
    intro r hr
    simp [heapUV] at hr
    rcases hr with h | h <;> simp [h, heapUV]
  have h := c9_snapshot_amended heapUV hwf
  refine ⟨?_, ?_, ?_⟩
  · rw [h.1]; rfl
  · rw [h.2.1 1 (Nat.le_refl 1)]; rfl
  · rw [h.2.2.2 none 2 msgV (by decide : (2 : Nat) ∈ (heapUV.get_messages none).2)]; rfl

/-! ### Loop infrastructure lemmas -/

/-- A tracer that is enabled and has an active run (the state every step of
a traced run sees after `start_run`). -/
def TracerActive (tr : Tracer) : Prop :=
  tr.enabled = true ∧ tr.current_run.isSome = true

/-- An active tracer is literally `⟨true, some rt⟩` for some run trace. -/
theorem tracer_eta (tr : Tracer) (h : TracerActive tr) :
    ∃ rt, tr = ⟨true, some rt⟩ := by
  obtain ⟨he, hs⟩ := h
  obtain ⟨rt, hrt⟩ := Option.isSome_iff_exists.mp hs
  exact ⟨rt, by cases tr; simp_all⟩

/-- Appending a batch of steps to an active tracer appends them to the run's
step list. -/
theorem addSteps_shape (ss : List TraceStep) : ∀ rt : RunTrace,
    Tracer.addSteps ⟨true, some rt⟩ ss = ⟨true, some { rt with steps := rt.steps ++ ss }⟩ := by
  induction ss with
  | nil =>
    intro rt
    show (⟨true, some rt⟩ : Tracer) = _
    cases rt
    simp
  | cons s rest ih =>
    intro rt
    show Tracer.addSteps (Tracer.addStep ⟨true, some rt⟩ s) rest = _
    rw [show Tracer.addStep ⟨true, some rt⟩ s =
          ⟨true, some { rt with steps := rt.steps ++ [s] }⟩ from rfl]
    rw [ih]
    simp

/-- The batch of steps a single tool invocation logs never contains a
model-call step. -/
theorem execute_tool_steps_not_llm (ag : Agent) (tc : ToolCall) :
    ∀ s ∈ (ag.execute_tool tc).1, s.isLlmCall = false := by
  unfold Agent.execute_tool
  rcases hf : ag.findTool tc.name with _ | t
  · cases hst : ag.strict <;> simp [hst, TraceStep.isLlmCall]
  · simp only []
    rcases ha : tc.args with kwargs | raw
    · simp only []
      rcases hc : t.call kwargs with e0 | v
      · cases hst : ag.strict <;> simp [hst, TraceStep.isLlmCall]
      · simp [TraceStep.isLlmCall]
    · cases hst : ag.strict <;> simp [hst, TraceStep.isLlmCall]

/-- In non-strict mode a tool invocation always produces a text result; no
exception escapes `_execute_tool`. -/
theorem execute_tool_nonstrict_ok (ag : Agent) (tc : ToolCall) (h : ag.strict = false) :
    ∃ s, (ag.execute_tool tc).2 = .ok s := by
  unfold Agent.execute_tool
  rcases hf : ag.findTool tc.name with _ | t
  · rw [h]
    exact ⟨_, rfl⟩
  · simp only []
    rcases ha : tc.args with kwargs | raw
    · simp only []
      rcases hc : t.call kwargs with e0 | v
      · rw [h]
        exact ⟨_, rfl⟩
      · exact ⟨_, rfl⟩
    · rw [h]
      exact ⟨_, rfl⟩

/-- Tool-call processing only appends (non-model-call) steps to the tracer:
the resulting tracer is the starting one extended by some batch. -/
theorem processToolCalls_tracer (ag : Agent) : ∀ (calls : List ToolCall) (st : AgentState),
    ∃ ss, (ag.processToolCalls calls st).1.tracer = st.tracer.addSteps ss ∧
      ∀ s ∈ ss, s.isLlmCall = false := by
  intro calls
  induction calls with
  | nil =>
    intro st
    exact ⟨[], rfl, by intro s hs; exact absurd hs (List.not_mem_nil s)⟩
  | cons tc rest ih =>
    intro st
    show ∃ ss,
      (match (ag.execute_tool tc).2 with
        | .ok text =>
            ag.processToolCalls rest
              { memory := ((st.memory.add "assistant" none (some [tc]) none).add
                  "tool" (some text) none tc.id)
                tracer := st.tracer.addSteps (ag.execute_tool tc).1 }
        | .error e =>
            ({ memory := st.memory.add "assistant" none (some [tc]) none
               tracer := st.tracer.addSteps (ag.execute_tool tc).1 }, some e)).1.tracer =
        st.tracer.addSteps ss ∧ ∀ s ∈ ss, s.isLlmCall = false
    cases hres : (ag.execute_tool tc).2 with
    | ok text =>
      obtain ⟨ss, hss, hnol⟩ := ih
        { memory := ((st.memory.add "assistant" none (some [tc]) none).add
            "tool" (some text) none tc.id)
          tracer := st.tracer.addSteps (ag.execute_tool tc).1 }
      refine ⟨(ag.execute_tool tc).1 ++ ss, ?_, ?_⟩
      · rw [hss]
        show Tracer.addSteps _ ss = _
        unfold Tracer.addSteps
        rw [List.foldl_append]
      · intro s hs
        rcases List.mem_append.mp hs with h1 | h2
        · exact execute_tool_steps_not_llm ag tc s h1
        · exact hnol s h2
    | error e =>
      exact ⟨(ag.execute_tool tc).1, rfl, execute_tool_steps_not_llm ag tc⟩

/-- Adding steps preserves tracer activity. -/
theorem addSteps_active (tr : Tracer) (ss : List TraceStep) (h : TracerActive tr) :
    TracerActive (tr.addSteps ss) := by
  obtain ⟨rt, hrt⟩ := tracer_eta tr h
  rw [hrt, addSteps_shape]
  exact ⟨rfl, rfl⟩

/-- Ending the run preserves tracer activity. -/
theorem end_run_active (tr : Tracer) (out : Option String) (err : Option AgentError)
    (h : TracerActive tr) : TracerActive (tr.end_run out err) := by
  obtain ⟨rt, hrt⟩ := tracer_eta tr h
  rw [hrt]
  exact ⟨rfl, rfl⟩

/-- Model-call counting through a batch of appended steps. -/
theorem addSteps_llmCount (tr : Tracer) (ss : List TraceStep) (h : TracerActive tr)
    (hno : ∀ s ∈ ss, s.isLlmCall = false) :
    (tr.addSteps ss).llmCallCount = tr.llmCallCount := by
  obtain ⟨rt, hrt⟩ := tracer_eta tr h
  rw [hrt, addSteps_shape]
  show (List.filter TraceStep.isLlmCall (rt.steps ++ ss)).length =
    (List.filter TraceStep.isLlmCall rt.steps).length
  rw [List.filter_append, List.length_append]
  have : ss.filter TraceStep.isLlmCall = [] := List.filter_eq_nil_iff.mpr (by
    intro s hs
    simp [hno s hs])
  rw [this]
  simp

/-- One appended model-call step increments the count. -/
theorem addStep_llm_llmCount (tr : Tracer) (msgs : List Message) (names : List String)
    (h : TracerActive tr) :
    (tr.addStep (.llm_call msgs names)).llmCallCount = tr.llmCallCount + 1 := by
  obtain ⟨rt, hrt⟩ := tracer_eta tr h
  rw [hrt]
  show (List.filter TraceStep.isLlmCall (rt.steps ++ [.llm_call msgs names])).length =
    (List.filter TraceStep.isLlmCall rt.steps).length + 1
  rw [List.filter_append, List.length_append]
  rfl

/-- Ending the run does not change the recorded steps. -/
theorem end_run_llmCount (tr : Tracer) (out : Option String) (err : Option AgentError)
    (h : TracerActive tr) :
    (tr.end_run out err).llmCallCount = tr.llmCallCount := by
  obtain ⟨rt, hrt⟩ := tracer_eta tr h
  rw [hrt]
  cases err <;> rfl

/-- Tool-call processing preserves tracer activity. -/
theorem processToolCalls_active (ag : Agent) (calls : List ToolCall) (st : AgentState)
    (h : TracerActive st.tracer) :
    TracerActive (ag.processToolCalls calls st).1.tracer := by
  obtain ⟨ss, hss, _⟩ := processToolCalls_tracer ag calls st
  rw [hss]
  exact addSteps_active _ _ h

/-- When every requested tool yields a text result, the batch completes
without a raised error. -/
theorem processToolCalls_ok (ag : Agent) : ∀ (calls : List ToolCall) (st : AgentState),
    (∀ tc ∈ calls, ∃ s, (ag.execute_tool tc).2 = .ok s) →
    (ag.processToolCalls calls st).2 = none := by
  intro calls
  induction calls with
  | nil => intro st _; rfl
  | cons tc rest ih =>
    intro st hok
    obtain ⟨s0, hs0⟩ := hok tc (List.mem_cons_self tc rest)
    simp only [Agent.processToolCalls]
    rw [hs0]
    exact ih _ (fun tc2 h2 => hok tc2 (List.mem_cons_of_mem tc h2))

/-- The loop preserves tracer activity. -/
theorem run_loop_active (ag : Agent) (gw : Gateway) : ∀ (fuel : Nat) (st : AgentState),
    TracerActive st.tracer → TracerActive (ag.run_loop gw fuel st).1.tracer := by
  intro fuel
  induction fuel with
  | zero =>
    intro st h
    exact end_run_active _ _ _ h
  | succ fuel ih =>
    intro st h
    have h1 : TracerActive
        (st.tracer.addStep (.llm_call (st.memory.get_messages none) ag.toolNames)) := by
      have := addSteps_active st.tracer
        [.llm_call (st.memory.get_messages none) ag.toolNames] h
      simpa [Tracer.addSteps] using this
    simp only [Agent.run_loop]
    split
    · split
      · exact h1
      · exact h1
    · rename_i resp hokeq
      split
      · split
        · split
          · exact ih _ h1
          · exact end_run_active _ _ _ h1
        · exact ih _ h1
      · split
        · rename_i st2 hp
          apply ih
          have h2 := processToolCalls_active ag resp.tool_calls { st with tracer := st.tracer.addStep (.llm_call (st.memory.get_messages none) ag.toolNames) } h1
          rw [hp] at h2
          exact h2
        · rename_i st2 e0 hp
          have h2 := processToolCalls_active ag resp.tool_calls { st with tracer := st.tracer.addStep (.llm_call (st.memory.get_messages none) ag.toolNames) } h1
          rw [hp] at h2
          split
          · exact h2
          · exact h2

/-- Against a gateway that always answers with at least one executable tool
request, the loop burns all its fuel, makes exactly one model call per
iteration, and raises the step-limit error. -/
theorem run_loop_always_tool_calls (ag : Agent) (gw : Gateway)
    (hgw : ∀ msgs, ∃ resp, gw msgs = .ok resp ∧ resp.tool_calls ≠ [] ∧
      ∀ tc ∈ resp.tool_calls, ∃ s, (ag.execute_tool tc).2 = .ok s) :
    ∀ (fuel : Nat) (st : AgentState), TracerActive st.tracer →
    ∃ st1, ag.run_loop gw fuel st = (st1, .error (.maxStepsExceeded
        ("Maximum number of steps (" ++ toString ag.max_steps ++ ") reached"))) ∧
      st1.tracer.llmCallCount = st.tracer.llmCallCount + fuel ∧
      TracerActive st1.tracer := by
  intro fuel
  induction fuel with
  | zero =>
    intro st h
    refine ⟨_, rfl, ?_, end_run_active _ _ _ h⟩
    simpa using end_run_llmCount st.tracer none _ h
  | succ fuel ih =>
    intro st h
    obtain ⟨resp, hresp, hne, hok⟩ := hgw (st.memory.get_messages none)
    have h1 : TracerActive
        (st.tracer.addStep (.llm_call (st.memory.get_messages none) ag.toolNames)) := by
      have := addSteps_active st.tracer
        [.llm_call (st.memory.get_messages none) ag.toolNames] h
      simpa [Tracer.addSteps] using this
    have hcount1 : (st.tracer.addStep
        (.llm_call (st.memory.get_messages none) ag.toolNames)).llmCallCount =
        st.tracer.llmCallCount + 1 :=
      addStep_llm_llmCount st.tracer _ _ h
    have hemp : resp.tool_calls.isEmpty = false := by
      cases hc : resp.tool_calls with
      | nil => exact absurd hc hne
      | cons a as => rfl
    simp only [Agent.run_loop]
    rw [hresp]
    simp only [hemp, Bool.false_eq_true, if_false]
    split
    · rename_i st2 hp
      have hact2 : TracerActive st2.tracer := by
        have h2 := processToolCalls_active ag resp.tool_calls { st with tracer := st.tracer.addStep (.llm_call (st.memory.get_messages none) ag.toolNames) } h1
        rw [hp] at h2
        exact h2
      have hcount2 : st2.tracer.llmCallCount = st.tracer.llmCallCount + 1 := by
        obtain ⟨ss, hss, hnol⟩ := processToolCalls_tracer ag resp.tool_calls
          { st with tracer := st.tracer.addStep (.llm_call (st.memory.get_messages none) ag.toolNames) }
        rw [hp] at hss
        rw [hss, addSteps_llmCount _ _ h1 hnol]
        exact hcount1
      obtain ⟨st1, heq, hcnt, hact⟩ := ih st2 hact2
      refine ⟨st1, heq, ?_, hact⟩
      rw [hcnt, hcount2]
      omega
    · rename_i st2 e0 hp
      have hno := processToolCalls_ok ag resp.tool_calls
        { st with tracer := st.tracer.addStep (.llm_call (st.memory.get_messages none) ag.toolNames) } hok
      rw [hp] at hno
      exact absurd hno (by simp)

/-! ### C2 — step limit -/

/-- C2: with a gateway that always returns executable tool requests and
never final text, `run` raises `MaxStepsExceeded` after exactly
`max_steps` model calls, in strict and non-strict mode alike (the agent's
`strict` flag is unconstrained here; the tool-success hypothesis is what the
spec's fake-gateway scenario provides). -/
theorem c2_step_limit (ag : Agent) (gw : Gateway) (st : AgentState) (message : String)
    (hgw : ∀ msgs, ∃ resp, gw msgs = .ok resp ∧ resp.tool_calls ≠ [] ∧
      ∀ tc ∈ resp.tool_calls, ∃ s, (ag.execute_tool tc).2 = .ok s)
    (htr : st.tracer.enabled = true) :
    ∃ st1, ag.run gw st message = (st1, .raised (.maxStepsExceeded
      ("Maximum number of steps (" ++ toString ag.max_steps ++ ") reached"))) ∧
      st1.tracer.llmCallCount = ag.max_steps := by
  unfold Agent.run
  have hstart : st.tracer.start_run message = ⟨true, some ⟨message, none, none, []⟩⟩ := by
    unfold Tracer.start_run
    rw [htr]
    cases htc : st.tracer
    simp_all
  rw [hstart]
  dsimp only []
  have hact0 : TracerActive (⟨true, some ⟨message, none, none, []⟩⟩ : Tracer) := ⟨rfl, rfl⟩
  obtain ⟨st1, heq, hcnt, hact⟩ := run_loop_always_tool_calls ag gw hgw ag.max_steps
    { memory := st.memory.add "user" (some message) none none
      tracer := ⟨true, some ⟨message, none, none, []⟩⟩ } hact0
  rw [heq]
  refine ⟨_, rfl, ?_⟩
  show (st1.tracer.end_run none _).llmCallCount = ag.max_steps
  rw [end_run_llmCount _ _ _ hact, hcnt]
  simp [Tracer.llmCallCount]

/-- C2, witness: the strict echo agent with `max_steps = 3` against a
gateway that always requests the echo tool: `run` raises the step-limit
error after exactly 3 model calls. -/
theorem c2_step_limit_witness :
    ∃ st1, agentStrictEcho.run gwEchoTool stEnabled "go" =
      (st1, .raised (.maxStepsExceeded "Maximum number of steps (3) reached")) ∧
      st1.tracer.llmCallCount = 3 := by
  have h := c2_step_limit agentStrictEcho gwEchoTool stEnabled "go"
    (fun msgs => ⟨⟨none, [tcEcho]⟩, rfl, List.cons_ne_nil tcEcho [],
      fun tc htc => by
        rw [List.mem_singleton.mp htc]
        exact ⟨"hi", rfl⟩⟩)
    rfl
  exact h

/-! ### C1 — strict-mode error classification -/

/-- C1, counterexample: in strict mode a tool-lookup failure does NOT
propagate out of `run` as a lookup-specific kind: `_execute_tool`'s own
outer handler (agent.py lines 142-147) first rewraps the raise as
`ToolExecutionError("Tool execution failed: ...")`, and the loop's `except`
block (line 225) then wraps that as
`LLMError("Error in LLM communication: ...")`, so the caller sees the
gateway-communication kind; no `ToolNotFound` kind exists at all. -/
theorem c1_classification_counterexample :
    (agentStrictNoTools.run gwMissingTool stEnabled "hi").2 =
      .raised (.llmError
        "Error in LLM communication: Tool execution failed: Tool \x27missing\x27 not found") ∧
    (∀ s, (agentStrictNoTools.run gwMissingTool stEnabled "hi").2 ≠
      .raised (.toolExecutionError s)) ∧
    (∀ s, (agentStrictNoTools.run gwMissingTool stEnabled "hi").2 ≠
      .raised (.invalidToolArguments s)) := by
  have hbase : (agentStrictNoTools.run gwMissingTool stEnabled "hi").2 =
      .raised (.llmError
        "Error in LLM communication: Tool execution failed: Tool \x27missing\x27 not found") := rfl
  refine ⟨hbase, ?_, ?_⟩
  · intro s h
    rw [hbase] at h
    simp at h
  · intro s h
    rw [hbase] at h
    simp at h

/-- C1, amended: in strict mode a tool failure raised inside the loop body —
lookup failure (classified `ToolExecutionError`, there being no
`ToolNotFound`), argument-validation failure, or execution failure — does
propagate out of `run`, but reclassified: the loop's catch-all wraps it as
`LLMError` with message `Error in LLM communication: <original message>`.
-/
theorem c1_strict_failures_reclassified (ag : Agent) (gw : Gateway) (st : AgentState)
    (message : String) (resp : LLMResponse) (tc : ToolCall) (rest : List ToolCall)
    (steps : List TraceStep) (e : AgentError)
    (hstrict : ag.strict = true) (hpos : 0 < ag.max_steps)
    (hgw : ∀ msgs, gw msgs = .ok resp)
    (hcalls : resp.tool_calls = tc :: rest)
    (hexec : ag.execute_tool tc = (steps, .error e)) :
    (ag.run gw st message).2 =
      .raised (.llmError ("Error in LLM communication: " ++ e.msg)) := by
  obtain ⟨n, hn⟩ : ∃ n, ag.max_steps = n + 1 := ⟨ag.max_steps - 1, by omega⟩
  unfold Agent.run
  rw [hn]
  dsimp only []
  simp only [Agent.run_loop]
  rw [hgw]
  have hemp : resp.tool_calls.isEmpty = false := by rw [hcalls]; rfl
  simp only [hemp, Bool.false_eq_true, if_false]
  rw [hcalls]
  simp only [Agent.processToolCalls]
  rw [show (ag.execute_tool tc).2 = .error e from by rw [hexec]]
  simp only [hstrict, if_true]

/-- C1, witness: the amended theorem applied to the strict no-tool agent and
the gateway that requests the unregistered tool "missing" (whose lookup
failure `_execute_tool` surfaces as the rewrapped
`ToolExecutionError("Tool execution failed: ...")` with one logged step). -/
theorem c1_reclassified_witness :
    (agentStrictNoTools.run gwMissingTool stEnabled "hi").2 =
      .raised (.llmError
        "Error in LLM communication: Tool execution failed: Tool \x27missing\x27 not found") := by
  have h := c1_strict_failures_reclassified agentStrictNoTools gwMissingTool stEnabled "hi"
    ⟨none, [tcMissing]⟩ tcMissing []
    [TraceStep.tool_result "missing" none
      (some "ToolExecutionError: Tool execution failed: Tool \x27missing\x27 not found")]
    (.toolExecutionError "Tool execution failed: Tool \x27missing\x27 not found")
    rfl (by decide) (fun _ => rfl) rfl rfl
  exact h

/-! ### C3 — trace completeness -/

/-- `start_run` on an enabled tracer installs a fresh run. -/
theorem start_run_shape (tr : Tracer) (message : String) (h : tr.enabled = true) :
    tr.start_run message = ⟨true, some ⟨message, none, none, []⟩⟩ := by
  unfold Tracer.start_run
  rw [h]
  cases htc : tr
  simp_all

/-- `end_run` with an error on an active tracer records the rendered
error. -/
theorem end_run_error_shape (tr : Tracer) (out : Option String) (e : AgentError)
    (h : TracerActive tr) :
    ∃ rt, (tr.end_run out (some e)).current_run = some rt ∧ rt.error = some e.errString := by
  obtain ⟨rt0, hrt⟩ := tracer_eta tr h
  rw [hrt]
  exact ⟨_, rfl, rfl⟩

/-- A failure occurring after a successful tool lookup — malformed argument
JSON or a failing `Tool.__call__` — always leaves a tool-result trace step
carrying the error, in strict and non-strict mode alike. -/
theorem execute_tool_post_lookup_failure_logged (ag : Agent) (tc : ToolCall) (t : Tool)
    (hf : ag.findTool tc.name = some t)
    (hfail : (∃ raw, tc.args = .malformed raw) ∨
      (∃ kwargs e0, tc.args = .parsed kwargs ∧ t.call kwargs = .error e0)) :
    (ag.execute_tool tc).1.any TraceStep.hasError = true := by
  unfold Agent.execute_tool
  rw [hf]
  rcases hfail with ⟨raw, ha⟩ | ⟨kwargs, e0, ha, hc⟩
  · rw [ha]
    simp [TraceStep.hasError]
  · rw [ha]
    simp only []
    rw [hc]
    cases hst : ag.strict <;> simp [hst, TraceStep.hasError]

/-- A non-strict tool-lookup failure emits no trace step at all (the plain
`return error_msg` of agent.py line 111 bypasses the tracer). -/
theorem execute_tool_lookup_no_steps (ag : Agent) (tc : ToolCall)
    (h : ag.findTool tc.name = none) (hs : ag.strict = false) :
    (ag.execute_tool tc).1 = [] := by
  unfold Agent.execute_tool
  rw [h]
  simp [hs]

/-- A strict tool-lookup failure IS logged: the raise of agent.py line 110
lands in the function's outer handler, which logs an error-carrying
tool-result step before re-raising. -/
theorem execute_tool_lookup_logged_strict (ag : Agent) (tc : ToolCall)
    (h : ag.findTool tc.name = none) (hs : ag.strict = true) :
    (ag.execute_tool tc).1.any TraceStep.hasError = true := by
  unfold Agent.execute_tool
  rw [h]
  simp [hs, TraceStep.hasError]

/-- Every error that propagates out of `run` (with tracing enabled) is
recorded as the run's error by `end_run`. -/
theorem run_raised_recorded (ag : Agent) (gw : Gateway) (st : AgentState)
    (message : String) (st1 : AgentState) (e : AgentError)
    (htr : st.tracer.enabled = true)
    (hrun : ag.run gw st message = (st1, .raised e)) :
    ∃ rt, st1.tracer.current_run = some rt ∧ rt.error = some e.errString := by
  unfold Agent.run at hrun
  rw [start_run_shape st.tracer message htr] at hrun
  dsimp only [] at hrun
  rcases hloop : ag.run_loop gw ag.max_steps
    { memory := st.memory.add "user" (some message) none none
      tracer := ⟨true, some ⟨message, none, none, []⟩⟩ } with ⟨stL, res⟩
  rw [hloop] at hrun
  cases res with
  | ok s => simp at hrun
  | error e2 =>
    have hact : TracerActive stL.tracer := by
      have h2 := run_loop_active ag gw ag.max_steps
        { memory := st.memory.add "user" (some message) none none
          tracer := ⟨true, some ⟨message, none, none, []⟩⟩ } ⟨rfl, rfl⟩
      rw [hloop] at h2
      exact h2
    rw [Prod.mk.injEq] at hrun
    obtain ⟨hst1, he⟩ := hrun
    have he2 : e2 = e := by simpa using he
    subst he2
    obtain ⟨rt, hrt, herr⟩ := end_run_error_shape stL.tracer none e2 hact
    refine ⟨rt, ?_, herr⟩
    rw [← hst1]
    exact hrt

/-- A non-strict gateway failure leaves no record in the trace: the
iteration only adds the model-call step and returns the error text as the
final answer; the run's error field and error-carrying steps are
untouched. -/
theorem run_loop_nonstrict_gw_failure (ag : Agent) (gw : Gateway) (fuel : Nat)
    (st : AgentState) (m : String)
    (hstrict : ag.strict = false)
    (hgw : gw (st.memory.get_messages none) = .exc m) :
    ag.run_loop gw (fuel + 1) st =
      ({ st with tracer := st.tracer.addStep (.llm_call (st.memory.get_messages none) ag.toolNames) },
       .ok ("Error in LLM communication: " ++ m)) := by
  simp only [Agent.run_loop]
  rw [hgw]
  simp [hstrict, AgentError.msg]

/-- C3, counterexample: two non-strict runs whose failures leave no record
in the trace.  First, a gateway failure: the run returns the error text as
its answer, yet the final trace records no error and no error-carrying step.
Second, a tool-lookup failure: the conversation visibly contains the
`Tool 'missing' not found` text, the run succeeds with "done", and again the
trace records no error and no error-carrying step (the lookup failure is not
even logged as a tool step). -/
theorem c3_trace_counterexample :
    ((agentLaxNoTools.run gwBoom stEnabled "hi").2 =
        .ok "Error in LLM communication: boom" ∧
      ∃ rt, (agentLaxNoTools.run gwBoom stEnabled "hi").1.tracer.current_run = some rt ∧
        rt.error = none ∧ rt.steps.any TraceStep.hasError = false) ∧
    ((agentLaxNoTools.run gwOnceMissingThenDone stEnabled "hi").2 = .ok "done" ∧
      (agentLaxNoTools.run gwOnceMissingThenDone stEnabled "hi").1.memory.messages.any
        (fun msg => msg.content == some "Tool \x27missing\x27 not found") = true ∧
      ∃ rt, (agentLaxNoTools.run gwOnceMissingThenDone stEnabled "hi").1.tracer.current_run =
          some rt ∧
        rt.error = none ∧ rt.steps.any TraceStep.hasError = false) :=
  ⟨⟨rfl, ⟨_, rfl, rfl, rfl⟩⟩, ⟨rfl, rfl, ⟨_, rfl, rfl, rfl⟩⟩⟩

/-- C3, amended: errors arising after a successful tool lookup (malformed
JSON, validation, execution) are recorded as error-carrying tool-result
steps before control flow, every error that propagates out of `run` is
recorded as the run's error, and a STRICT-mode lookup failure is also
logged (by the function's outer handler, rewrapped as
`Tool execution failed: ...`); but a non-strict tool-lookup failure emits
no trace step at all, and a non-strict gateway failure ends the run with
the error text as the answer and nothing recorded. -/
theorem c3_trace_recording_amended :
    (∀ (ag : Agent) (tc : ToolCall) (t : Tool), ag.findTool tc.name = some t →
      ((∃ raw, tc.args = .malformed raw) ∨
        (∃ kwargs e0, tc.args = .parsed kwargs ∧ t.call kwargs = .error e0)) →
      (ag.execute_tool tc).1.any TraceStep.hasError = true) ∧
    (∀ (ag : Agent) (gw : Gateway) (st : AgentState) (message : String)
        (st1 : AgentState) (e : AgentError),
      st.tracer.enabled = true → ag.run gw st message = (st1, .raised e) →
      ∃ rt, st1.tracer.current_run = some rt ∧ rt.error = some e.errString) ∧
    (∀ (ag : Agent) (tc : ToolCall), ag.findTool tc.name = none → ag.strict = true →
      (ag.execute_tool tc).1.any TraceStep.hasError = true) ∧
    (∀ (ag : Agent) (tc : ToolCall), ag.findTool tc.name = none → ag.strict = false →
      (ag.execute_tool tc).1 = []) ∧
    (∀ (ag : Agent) (gw : Gateway) (fuel : Nat) (st : AgentState) (m : String),
      ag.strict = false → gw (st.memory.get_messages none) = .exc m →
      ag.run_loop gw (fuel + 1) st =
        ({ st with tracer := st.tracer.addStep (.llm_call (st.memory.get_messages none) ag.toolNames) },
         .ok ("Error in LLM communication: " ++ m))) :=
  ⟨execute_tool_post_lookup_failure_logged,
   run_raised_recorded,
   execute_tool_lookup_logged_strict,
   execute_tool_lookup_no_steps,
   run_loop_nonstrict_gw_failure⟩

/-- C3, witness: the amended theorem applied concretely — the non-strict
agent's lookup failure emits no step, the strict agent's lookup failure
does log an error step, and a strict run whose gateway raises "boom"
records `LLMError: Error in LLM communication: boom` as the run's error. -/
theorem c3_trace_recording_witness :
    (agentLaxNoTools.execute_tool tcMissing).1 = [] ∧
    (agentStrictNoTools.execute_tool tcMissing).1.any TraceStep.hasError = true ∧
    ∃ rt, (agentStrictNoTools.run gwBoom stEnabled "hi").1.tracer.current_run = some rt ∧
      rt.error = some "LLMError: Error in LLM communication: boom" := by
  have hA := c3_trace_recording_amended.2.2.2.1 agentLaxNoTools tcMissing rfl rfl
  have hA2 := c3_trace_recording_amended.2.2.1 agentStrictNoTools tcMissing rfl rfl
  have hB := c3_trace_recording_amended.2.1 agentStrictNoTools gwBoom stEnabled "hi"
    ((agentStrictNoTools.run gwBoom stEnabled "hi").1)
    (.llmError "Error in LLM communication: boom") rfl rfl
  exact ⟨hA, hA2, hB⟩

/-! ### C6 / C10 — the tool round and the success exit -/

/-- An unbounded store's `add` is plain append. -/
theorem add_unbounded (mem : InMemoryMemory) (role : String) (content : Option String)
    (tcs : Option (List ToolCall)) (tcid : Option String)
    (h : mem.max_messages = none) :
    mem.add role content tcs tcid = ⟨mem.messages ++ [⟨role, content, tcs, tcid⟩], none⟩ := by
  unfold InMemoryMemory.add
  rw [h]

/-- The text a tool invocation feeds back into the conversation (its result,
or in non-strict mode the error text). -/
def execText (ag : Agent) (tc : ToolCall) : String :=
  match (ag.execute_tool tc).2 with
  | .ok s => s
  | .error e => e.msg

/-- The 2k messages one loop iteration appends for k tool requests: for each
request, in the model's order, one assistant message carrying that single
request, then one tool-result message referencing its `tool_call_id`. -/
def toolRound (ag : Agent) (calls : List ToolCall) : List Message :=
  calls.flatMap (fun tc =>
    [⟨"assistant", none, some [tc], none⟩,
     ⟨"tool", some (execText ag tc), none, tc.id⟩])

/-- The tool round has exactly two messages per request. -/
theorem toolRound_length (ag : Agent) (calls : List ToolCall) :
    (toolRound ag calls).length = 2 * calls.length := by
  induction calls with
  | nil => rfl
  | cons tc rest ih =>
    unfold toolRound at ih ⊢
    rw [List.flatMap_cons, List.length_append, ih]
    simp only [List.length_cons, List.length_nil]
    omega

/-- Every message of a tool round is either an assistant message with no
text (it carries only the request) or a tool-result message. -/
theorem toolRound_roles (ag : Agent) (calls : List ToolCall) :
    ∀ msg ∈ toolRound ag calls,
      (msg.role = "assistant" ∧ msg.content = none) ∨ msg.role = "tool" := by
  intro msg hm
  unfold toolRound at hm
  rw [List.mem_flatMap] at hm
  obtain ⟨tc, _, hm2⟩ := hm
  rw [List.mem_cons] at hm2
  rcases hm2 with h | h
  · rw [h]
    exact Or.inl ⟨rfl, rfl⟩
  · rw [List.mem_singleton.mp h]
    exact Or.inr rfl

/-- When every requested tool yields a text result and the store is
unbounded, processing a batch appends exactly the tool round to the
conversation and raises nothing. -/
theorem processToolCalls_ok_mem (ag : Agent) : ∀ (calls : List ToolCall) (st : AgentState),
    st.memory.max_messages = none →
    (∀ tc ∈ calls, ∃ s, (ag.execute_tool tc).2 = .ok s) →
    ∃ tr2, ag.processToolCalls calls st =
      ({ memory := ⟨st.memory.messages ++ toolRound ag calls, none⟩, tracer := tr2 }, none) := by
  intro calls
  induction calls with
  | nil =>
    intro st hmax hok
    refine ⟨st.tracer, ?_⟩
    show (st, none) = _
    rcases st with ⟨⟨msgs, mx⟩, tr⟩
    simp only [InMemoryMemory.max_messages] at hmax
    subst hmax
    simp [toolRound]
  | cons tc rest ih =>
    intro st hmax hok
    obtain ⟨s0, hs0⟩ := hok tc (List.mem_cons_self tc rest)
    simp only [Agent.processToolCalls]
    rw [hs0]
    simp only []
    simp only [add_unbounded, hmax]
    obtain ⟨tr2, hrec⟩ := ih
      ⟨⟨(st.memory.messages ++ [⟨"assistant", none, some [tc], none⟩]) ++
          [⟨"tool", some s0, none, tc.id⟩], none⟩,
        st.tracer.addSteps (ag.execute_tool tc).1⟩
      rfl (fun tc2 h2 => hok tc2 (List.mem_cons_of_mem tc h2))
    rw [hrec]
    refine ⟨tr2, ?_⟩
    have hexecText : execText ag tc = s0 := by
      unfold execText
      rw [hs0]
    unfold toolRound
    rw [List.flatMap_cons]
    simp [hexecText, toolRound]

/-- In non-strict mode a whole batch of tool calls never raises. -/
theorem processToolCalls_nonstrict_none (ag : Agent) (h : ag.strict = false) :
    ∀ (calls : List ToolCall) (st : AgentState),
      (ag.processToolCalls calls st).2 = none := by
  intro calls
  induction calls with
  | nil => intro st; rfl
  | cons tc rest ih =>
    intro st
    obtain ⟨s0, hs0⟩ := execute_tool_nonstrict_ok ag tc h
    simp only [Agent.processToolCalls]
    rw [hs0]
    exact ih _

/-- A loop iteration whose response carries executable tool requests appends
exactly the tool round and continues to the next iteration. -/
theorem run_loop_tool_round (ag : Agent) (gw : Gateway) (fuel : Nat) (st : AgentState)
    (resp : LLMResponse)
    (hmax : st.memory.max_messages = none)
    (hgw : gw (st.memory.get_messages none) = .ok resp)
    (hne : resp.tool_calls ≠ [])
    (hok : ∀ tc ∈ resp.tool_calls, ∃ s, (ag.execute_tool tc).2 = .ok s) :
    ∃ tr2, ag.run_loop gw (fuel + 1) st =
      ag.run_loop gw fuel ⟨⟨st.memory.messages ++ toolRound ag resp.tool_calls, none⟩, tr2⟩ := by
  have hemp : resp.tool_calls.isEmpty = false := by
    cases hc : resp.tool_calls with
    | nil => exact absurd hc hne
    | cons a as => rfl
  simp only [Agent.run_loop]
  rw [hgw]
  simp only [hemp, Bool.false_eq_true, if_false]
  obtain ⟨tr2, hp⟩ := processToolCalls_ok_mem ag resp.tool_calls
    { st with tracer := st.tracer.addStep (.llm_call (st.memory.get_messages none) ag.toolNames) }
    hmax hok
  rw [hp]
  exact ⟨tr2, rfl⟩

/-- A loop iteration whose response carries no tool requests and non-empty
final text appends the text as an assistant message and returns it. -/
theorem run_loop_content_exit (ag : Agent) (gw : Gateway) (fuel : Nat) (st : AgentState)
    (resp : LLMResponse) (s : String)
    (hmax : st.memory.max_messages = none)
    (hgw : gw (st.memory.get_messages none) = .ok resp)
    (hcalls : resp.tool_calls = [])
    (hcontent : resp.content = some s)
    (hs : s ≠ "") :
    ∃ tr2, ag.run_loop gw (fuel + 1) st =
      (⟨⟨st.memory.messages ++ [⟨"assistant", some s, none, none⟩], none⟩, tr2⟩, .ok s) := by
  have hbeq : (s == "") = false := beq_eq_false_iff_ne.mpr hs
  simp only [Agent.run_loop]
  rw [hgw]
  simp only []
  rw [hcalls]
  simp only [List.isEmpty_nil, if_true]
  rw [hcontent]
  simp only [hbeq, Bool.false_eq_true, if_false]
  rw [add_unbounded st.memory "assistant" (some s) none none hmax]
  exact ⟨_, rfl⟩

/-- Whenever the gateway never fails, the loop returns an answer only
because some response carried no tool requests and that answer as its
non-empty text. -/
theorem run_loop_ok_from_content (ag : Agent) (gw : Gateway)
    (htotal : ∀ msgs, ∃ r, gw msgs = .ok r) :
    ∀ (fuel : Nat) (st st1 : AgentState) (s : String),
      ag.run_loop gw fuel st = (st1, .ok s) →
      ∃ hist r, gw hist = .ok r ∧ r.tool_calls = [] ∧ r.content = some s ∧ s ≠ "" := by
  intro fuel
  induction fuel with
  | zero =>
    intro st st1 s h
    exact absurd h (by simp [Agent.run_loop])
  | succ fuel ih =>
    intro st st1 s h
    obtain ⟨r, hr⟩ := htotal (st.memory.get_messages none)
    simp only [Agent.run_loop] at h
    rw [hr] at h
    cases hemp : r.tool_calls.isEmpty with
    | true =>
      simp only [hemp, if_true] at h
      rcases hc : r.content with _ | s2
      · rw [hc] at h
        exact ih _ _ _ h
      · rw [hc] at h
        simp only [] at h
        cases hs2 : (s2 == "") with
        | true =>
          simp only [hs2, if_true] at h
          exact ih _ _ _ h
        | false =>
          simp only [hs2, Bool.false_eq_true, if_false] at h
          rw [Prod.mk.injEq] at h
          obtain ⟨_, h2⟩ := h
          have hs2eq : s2 = s := by simpa using h2
          subst hs2eq
          exact ⟨st.memory.get_messages none, r, hr, List.isEmpty_iff.mp hemp, hc,
            by simpa using hs2⟩
    | false =>
      simp only [hemp, Bool.false_eq_true, if_false] at h
      rcases hp : ag.processToolCalls r.tool_calls
        { st with tracer := st.tracer.addStep (.llm_call (st.memory.get_messages none) ag.toolNames) }
        with ⟨st2, res⟩
      rw [hp] at h
      cases res with
      | none => exact ih _ _ _ h
      | some e0 =>
        cases hst : ag.strict with
        | true =>
          simp only [hst, if_true] at h
          exact absurd h (by simp)
        | false =>
          have hn := processToolCalls_nonstrict_none ag hst r.tool_calls
            { st with tracer := st.tracer.addStep (.llm_call (st.memory.get_messages none) ag.toolNames) }
          rw [hp] at hn
          exact absurd hn (by simp)

/-- C6: a response carrying k ≥ 1 executable tool requests makes the loop
append, per request in the model's order, one assistant message holding that
single request and one tool-result message referencing its id — `toolRound`,
2k messages — and then recurse rather than return; a response with final
text appends it as an assistant message and returns it; and (for a gateway
that never fails) a text-bearing response is the only way the loop returns
an answer. -/
theorem c6_tool_round_and_success_exit :
    (∀ (ag : Agent) (tc : ToolCall) (rest : List ToolCall),
      toolRound ag (tc :: rest) =
        [⟨"assistant", none, some [tc], none⟩,
         ⟨"tool", some (execText ag tc), none, tc.id⟩] ++ toolRound ag rest) ∧
    (∀ (ag : Agent) (gw : Gateway) (fuel : Nat) (st : AgentState) (resp : LLMResponse),
      st.memory.max_messages = none →
      gw (st.memory.get_messages none) = .ok resp →
      resp.tool_calls ≠ [] →
      (∀ tc ∈ resp.tool_calls, ∃ s, (ag.execute_tool tc).2 = .ok s) →
      (toolRound ag resp.tool_calls).length = 2 * resp.tool_calls.length ∧
      ∃ tr2, ag.run_loop gw (fuel + 1) st =
        ag.run_loop gw fuel ⟨⟨st.memory.messages ++ toolRound ag resp.tool_calls, none⟩, tr2⟩) ∧
    (∀ (ag : Agent) (gw : Gateway) (fuel : Nat) (st : AgentState) (resp : LLMResponse)
        (s : String),
      st.memory.max_messages = none →
      gw (st.memory.get_messages none) = .ok resp →
      resp.tool_calls = [] →
      resp.content = some s →
      s ≠ "" →
      ∃ tr2, ag.run_loop gw (fuel + 1) st =
        (⟨⟨st.memory.messages ++ [⟨"assistant", some s, none, none⟩], none⟩, tr2⟩, .ok s)) ∧
    (∀ (ag : Agent) (gw : Gateway), (∀ msgs, ∃ r, gw msgs = .ok r) →
      ∀ (fuel : Nat) (st st1 : AgentState) (s : String),
        ag.run_loop gw fuel st = (st1, .ok s) →
        ∃ hist r, gw hist = .ok r ∧ r.tool_calls = [] ∧ r.content = some s ∧ s ≠ "") := by
  refine ⟨?_, ?_, ?_, ?_⟩
  · intro ag tc rest
    unfold toolRound
    rw [List.flatMap_cons]
  · intro ag gw fuel st resp hmax hgw hne hok
    exact ⟨toolRound_length ag resp.tool_calls,
      run_loop_tool_round ag gw fuel st resp hmax hgw hne hok⟩
  · intro ag gw fuel st resp s hmax hgw hcalls hcontent hs
    exact run_loop_content_exit ag gw fuel st resp s hmax hgw hcalls hcontent hs
  · intro ag gw htotal fuel st st1 s h
    exact run_loop_ok_from_content ag gw htotal fuel st st1 s h

/-- C6, witness: the theorem applied concretely — one iteration against the
tool-requesting gateway appends the two-message round and recurses, and one
iteration against a text-answering gateway returns the text. -/
theorem c6_tool_round_witness :
    (∃ tr2, agentLaxNoTools.run_loop gwMissingTool 3 stEnabled =
      agentLaxNoTools.run_loop gwMissingTool 2
        ⟨⟨stEnabled.memory.messages ++ toolRound agentLaxNoTools [tcMissing], none⟩, tr2⟩) ∧
    (∃ tr2, agentLaxNoTools.run_loop gwDone 3 stEnabled =
      (⟨⟨stEnabled.memory.messages ++ [⟨"assistant", some "done", none, none⟩], none⟩, tr2⟩,
        .ok "done")) := by
  constructor
  · exact c6_tool_round_and_success_exit.2.1 agentLaxNoTools gwMissingTool 2 stEnabled
      ⟨none, [tcMissing]⟩ rfl rfl (List.cons_ne_nil tcMissing [])
      (fun tc htc => by
        rw [List.mem_singleton.mp htc]
        exact ⟨"Tool \x27missing\x27 not found", rfl⟩) |>.2
  · exact c6_tool_round_and_success_exit.2.2.1 agentLaxNoTools gwDone 2 stEnabled
      ⟨some "done", []⟩ "done" rfl rfl rfl rfl (by decide)

/-- C10: when a response carries both tool requests and non-empty text, the
loop takes the tool branch: it appends exactly the tool round (whose
messages are assistant-with-request-only or tool-result — never an
assistant message carrying the text) and recurses instead of returning, so
that response's text is neither appended to the store nor returned as the
answer. -/
theorem c10_text_ignored_when_tool_calls (ag : Agent) (gw : Gateway) (fuel : Nat)
    (st : AgentState) (resp : LLMResponse) (s : String)
    (hmax : st.memory.max_messages = none)
    (hgw : gw (st.memory.get_messages none) = .ok resp)
    (hne : resp.tool_calls ≠ [])
    (hcontent : resp.content = some s)
    (hs : s ≠ "")
    (hok : ∀ tc ∈ resp.tool_calls, ∃ r, (ag.execute_tool tc).2 = .ok r) :
    (∃ tr2, ag.run_loop gw (fuel + 1) st =
      ag.run_loop gw fuel ⟨⟨st.memory.messages ++ toolRound ag resp.tool_calls, none⟩, tr2⟩) ∧
    (∀ msg ∈ toolRound ag resp.tool_calls,
      (msg.role = "assistant" ∧ msg.content = none) ∨ msg.role = "tool") :=
  ⟨run_loop_tool_round ag gw fuel st resp hmax hgw hne hok,
   toolRound_roles ag resp.tool_calls⟩

/-- C10, witness: the theorem applied to a gateway response carrying both
the text "ignored" and a tool request: the iteration recurses on the tool
round, no message of which is assistant text. -/
theorem c10_text_ignored_witness :
    (∃ tr2, agentLaxNoTools.run_loop gwBothTextAndTool 3 stEnabled =
      agentLaxNoTools.run_loop gwBothTextAndTool 2
        ⟨⟨stEnabled.memory.messages ++ toolRound agentLaxNoTools [tcMissing], none⟩, tr2⟩) ∧
    (∀ msg ∈ toolRound agentLaxNoTools [tcMissing],
      (msg.role = "assistant" ∧ msg.content = none) ∨ msg.role = "tool") := by
  have h := c10_text_ignored_when_tool_calls agentLaxNoTools gwBothTextAndTool 2 stEnabled
    ⟨some "ignored", [tcMissing]⟩ "ignored" rfl rfl (List.cons_ne_nil tcMissing [])
    rfl (by decide)
    (fun tc htc => by
      rw [List.mem_singleton.mp htc]
      exact ⟨"Tool \x27missing\x27 not found", rfl⟩)
  exact h

end Microagent
